import Mathlib

/-!
Verification of the catalog-builder and synopsis-linter core of the
MSP-Resources repository (`tools/build_catalog.py`, `tools/lint_scripts.py`).

Texts are modelled as `List Char`.  Python string primitives used by the two
scripts (`str.partition`, `str.index`, `str.splitlines`, `str.strip`,
`str.rstrip`, `str.lstrip`, substring membership, and the handful of regular
expressions) are given direct executable models; regular expressions are
modelled by their match semantics (decidable existence of a matching
decomposition, with leftmost and non-greedy behaviour made explicit through
first-occurrence search).  Whitespace and line-break character sets follow
Python's `str` definitions.  Definitions come first (models of the source,
plus clearly marked spec-side definitions for refinement comparison),
followed by the supporting lemmas and the claim theorems.
-/

set_option maxRecDepth 8000

/-- Python whitespace (the set stripped by `str.strip` and matched by `\s`). -/
def isPyWs (c : Char) : Bool :=
  c = ' ' || c = '\t' || c = '\n' || c = '\r' ||
  (0x0b ≤ c.toNat && c.toNat ≤ 0x0c) || (0x1c ≤ c.toNat && c.toNat ≤ 0x1f) ||
  c.toNat = 0x85 || c.toNat = 0xa0 || c.toNat = 0x1680 ||
  (0x2000 ≤ c.toNat && c.toNat ≤ 0x200a) ||
  c.toNat = 0x2028 || c.toNat = 0x2029 || c.toNat = 0x202f ||
  c.toNat = 0x205f || c.toNat = 0x3000

/-- Line-break characters recognised by Python's `str.splitlines`
(`\r\n` is additionally treated as a single break by `pySplitlines`). -/
def isLineBreak (c : Char) : Bool :=
  c = '\n' || c = '\r' || c.toNat = 0x0b || c.toNat = 0x0c ||
  c.toNat = 0x1c || c.toNat = 0x1d || c.toNat = 0x1e ||
  c.toNat = 0x85 || c.toNat = 0x2028 || c.toNat = 0x2029

/-- Worker for `pySplitlines`; `acc` holds the current (reversed) line. -/
def splitlinesGo : List Char → List Char → List (List Char)
  | [], acc => if acc.isEmpty then [] else [acc.reverse]
  | '\r' :: '\n' :: t, acc => acc.reverse :: splitlinesGo t []
  | c :: t, acc =>
    if isLineBreak c then acc.reverse :: splitlinesGo t []
    else splitlinesGo t (c :: acc)

/-- Python `str.splitlines()`. -/
def pySplitlines (s : List Char) : List (List Char) :=
  splitlinesGo s []

/-- Python `str.lstrip()` (no argument: strips leading whitespace). -/
def pyLstrip (s : List Char) : List Char :=
  s.dropWhile isPyWs

/-- Python `str.rstrip()` (no argument: strips trailing whitespace). -/
def pyRstrip (s : List Char) : List Char :=
  (s.reverse.dropWhile isPyWs).reverse

/-- Python `str.strip()`. -/
def pyStrip (s : List Char) : List Char :=
  pyRstrip (pyLstrip s)

/-- The maximal run of trailing whitespace of a text
(the part removed by `pyRstrip`). -/
def trailingWs (s : List Char) : List Char :=
  (s.reverse.takeWhile isPyWs).reverse

/-- ASCII lowercasing of one character (model of Python `str.lower` /
`re.IGNORECASE` on the ASCII texts handled here). -/
def asciiLower (c : Char) : Char :=
  if 'A' ≤ c && c ≤ 'Z' then Char.ofNat (c.toNat + 32) else c

/-- Lowercase a text characterwise. -/
def lowerStr (s : List Char) : List Char :=
  s.map asciiLower

/-- First index at which `pat` occurs as a contiguous sublist of `s`
(model of Python `str.find` / the search underlying `str.partition`,
`str.index` and the `in` operator). -/
def findSub (pat : List Char) : List Char → Option Nat
  | [] => if pat.isPrefixOf ([] : List Char) then some 0 else none
  | c :: t =>
    if pat.isPrefixOf (c :: t) then some 0
    else (findSub pat t).map (· + 1)

/-- Python substring membership `pat in s`. -/
def containsSub (pat s : List Char) : Bool :=
  (findSub pat s).isSome

/-- Model of Python `s.partition(pat)`, keeping the part before the first
occurrence and the part after it (`(s, "")` when `pat` is absent, matching
`partition`'s `(s, "", "")`). -/
def partitionAfter (pat s : List Char) : List Char × List Char :=
  match findSub pat s with
  | some i => (s.take i, s.drop (i + pat.length))
  | none => (s, [])

/-- Pattern `pat` has no nonempty proper border: no strict prefix of `pat` is also a
suffix.  The marker and token literals used by the scripts all satisfy this,
which rules out occurrences straddling a decomposition boundary. -/
def NoBorder (pat : List Char) : Prop :=
  ∀ k, k < pat.length → 0 < k → pat.take k ≠ pat.drop (pat.length - k)

instance (pat : List Char) : Decidable (NoBorder pat) :=
  Nat.decidableBallLT pat.length fun k _ => 0 < k → pat.take k ≠ pat.drop (pat.length - k)

/-- Is `q` a position where `re.MULTILINE`'s `^` matches in `s`
(start of string, or immediately after a newline)? -/
def lineStartAt (s : List Char) (q : Nat) : Bool :=
  q == 0 || s.getD (q - 1) ' ' == '\n'

/-- A regex word character (`\w`, ASCII model). -/
def isWordChar (c : Char) : Bool :=
  ('a' ≤ c && c ≤ 'z') || ('A' ≤ c && c ≤ 'Z') || ('0' ≤ c && c ≤ '9') || c = '_'

/-- Is there a word boundary `\b` before position `i` of `s` (the preceding
character being a word character)? -/
def noWordCharAt (s : List Char) (i : Nat) : Bool :=
  !(isWordChar (s.getD i ' '))

/-- Match semantics of `re.search(r"(?im)^\s*\.SYNOPSIS\b", block)`: some
line start is followed by optional whitespace (which may span line breaks)
and then the tag `.SYNOPSIS`, case-insensitively, ending at a word
boundary. -/
def psTagRe (block : List Char) : Bool :=
  (List.range (block.length + 1)).any fun q =>
    lineStartAt block q &&
    (List.range (block.length + 1 - q)).any fun d =>
      ((block.drop q).take d).all isPyWs &&
      lowerStr ((block.drop (q + d)).take 9) == (".synopsis").data &&
      noWordCharAt block (q + d + 9)

/-- Model of `lint_scripts.has_ps_synopsis`: find the first `<#`, the first `#>`
after it (the leftmost, non-greedy match of `<#([\s\S]*?)#>`), and search
the enclosed block for a `.SYNOPSIS` tag line. -/
def has_ps_synopsis (text : List Char) : Bool :=
  match findSub ("<#").data text with
  | none => false
  | some i =>
    match findSub ("#>").data (text.drop (i + 2)) with
    | none => false
    | some j => psTagRe ((text.drop (i + 2)).take j)

/-- Python `s.startswith("#")`. -/
def startsWithHash (s : List Char) : Bool :=
  match s with
  | '#' :: _ => true
  | _ => false

/-- The shared comment-scanning loop of `extract_bash_synopsis` and the
fallback part of `extract_py_synopsis`: for each line, strip it; a hash
line with nonempty content (after `lstrip("#").strip()`) is returned;
blank or content-free hash lines are skipped; the first other line stops
the scan with an empty result. -/
def pyHashScan : List (List Char) → List Char
  | [] => []
  | ln :: rest =>
    let s := pyStrip ln
    if startsWithHash s then
      let s2 := pyStrip (s.dropWhile (· == '#'))
      if s2.isEmpty then pyHashScan rest else s2
    else if s.isEmpty then pyHashScan rest else []

/-- Model of `lint_scripts.extract_bash_synopsis`. -/
def extract_bash_synopsis (text : List Char) : List Char :=
  let lines := pySplitlines text
  let rest := match lines with
    | l0 :: t => if ("#!").data.isPrefixOf l0 then t else lines
    | [] => lines
  pyHashScan rest

/-- The double-quote triple delimiter. -/
def tripleQuoteD : List Char := ("\"\"\"").data

/-- A single-quote character (code point 39). -/
def singleQuote : Char := Char.ofNat 39

/-- The single-quote triple delimiter. -/
def tripleQuoteS : List Char := [singleQuote, singleQuote, singleQuote]

/-- Opening part of `re.match(r'\s*[rRuU]?((?:"""|\x27\x27\x27))...', text)`:
leading whitespace, an optional prefix letter, then a triple-quote
delimiter.  Returns the position just after the delimiter and the
delimiter itself. -/
def pyDocOpen (text : List Char) : Option (Nat × List Char) :=
  let i := (text.takeWhile isPyWs).length
  let t1 := text.drop i
  let pfx : Nat × List Char :=
    match t1 with
    | c :: rest2 =>
      if c = 'r' || c = 'R' || c = 'u' || c = 'U' then (i + 1, rest2) else (i, t1)
    | [] => (i, t1)
  if tripleQuoteD.isPrefixOf pfx.2 then some (pfx.1 + 3, tripleQuoteD)
  else if tripleQuoteS.isPrefixOf pfx.2 then some (pfx.1 + 3, tripleQuoteS)
  else none

/-- Full docstring match: the non-greedy body extends to the first later
occurrence of the same delimiter; an unclosed docstring is no match. -/
def pyDocMatch (text : List Char) : Option (List Char) :=
  match pyDocOpen text with
  | none => none
  | some (p, q) =>
    match findSub q (text.drop p) with
    | none => none
    | some k => some ((text.drop p).take k)

/-- Model of `lint_scripts.extract_py_synopsis`: module docstring first line, else
the leading-hash comment scan over all lines. -/
def extract_py_synopsis (text : List Char) : List Char :=
  match pyDocMatch text with
  | some body =>
    let doc := pyStrip body
    if doc.isEmpty then pyHashScan (pySplitlines text)
    else pyStrip ((pySplitlines doc).getD 0 [])
  | none => pyHashScan (pySplitlines text)

/-- A docstring is opened (whitespace, optional prefix letter, triple
quote) but its delimiter never reappears: the malformed-docstring case. -/
def docstring_unclosed (text : List Char) : Bool :=
  match pyDocOpen text with
  | some (p, q) => !(containsSub q (text.drop p))
  | none => false

def MARKER_START : List Char := ("<!-- GENERATED-CATALOG:START -->").data

def MARKER_END : List Char := ("<!-- GENERATED-CATALOG:END -->").data

def LEGACY_H1 : List Char := ("## Script Catalog").data

/-- The generated block `f"{MARKER_START}\n{catalog}{MARKER_END}\n"`. -/
def blockOf (catalog : List Char) : List Char :=
  MARKER_START ++ ('\n' :: catalog) ++ MARKER_END ++ ['\n']

/-- Does a match of `^##[\t ]+.+$` begin at the head of this list?
(`##`, at least one tab/space, then at least one non-newline character). -/
def h2At : List Char → Bool
  | '#' :: '#' :: c :: d :: _ => (c == '\t' || c == ' ') && !(d == '\n')
  | _ => false

/-- Scan for the first `re.MULTILINE` line start where `^##[\t ]+.+$`
matches; `atStart` tracks whether the current position follows a newline
(or is the start of the searched string). -/
def findH2Go : List Char → Nat → Bool → Option Nat
  | [], _, _ => none
  | c :: t, i, atStart =>
    if atStart && h2At (c :: t) then some i
    else findH2Go t (i + 1) (c == '\n')

/-- Model of `re.search(r"^##[\t ]+.+$", s, flags=re.MULTILINE)`, returning the
match start. -/
def findH2 (s : List Char) : Option Nat :=
  findH2Go s 0 true

/-- The merge performed by `build_catalog.render_readme` on an existing
document `prev`: replace between the markers; else replace from the legacy
heading to the next level-2 heading (or end of text); else append after
stripping trailing whitespace. -/
def render_readme_merge (prev catalog : List Char) : List Char :=
  let block := blockOf catalog
  if containsSub MARKER_START prev && containsSub MARKER_END prev then
    let pr := partitionAfter MARKER_START prev
    let pr2 := partitionAfter MARKER_END pr.2
    pr.1 ++ block ++ pr2.2
  else if containsSub LEGACY_H1 prev then
    let start := (findSub LEGACY_H1 prev).getD 0
    let region := prev.drop (start + LEGACY_H1.length)
    let endPos := match findH2 region with
      | some q => start + LEGACY_H1.length + q
      | none => prev.length
    prev.take start ++ block ++ prev.drop endPos
  else
    pyRstrip prev ++ ('\n' :: '\n' :: block)

/-- Third rule of `build_catalog.section_for` (`ConnectWise-PSA` anchor),
with the final `("Misc", "Misc")` fallback. -/
def sectionForPSA (parts : List String) : String × String :=
  if parts.contains ("ConnectWise-PSA") then
    let idx := parts.indexOf ("ConnectWise-PSA")
    if idx + 1 < parts.length then (("ConnectWise PSA"), parts.getD (idx + 1) (""))
    else (("ConnectWise PSA"), ("General"))
  else (("Misc"), ("Misc"))

/-- Second rule of `build_catalog.section_for` (`Standalone` anchor). -/
def sectionForStandalone (parts : List String) : String × String :=
  if parts.contains ("Standalone") then
    let idx := parts.indexOf ("Standalone")
    if idx + 1 < parts.length then (("Standalone"), parts.getD (idx + 1) (""))
    else (("Standalone"), ("General"))
  else sectionForPSA parts

/-- Model of `build_catalog.section_for` on the path's segment list.  Note that the
`Scripts` rule returns only when a segment follows the anchor; otherwise
control falls through to the later rules. -/
def section_for (parts : List String) : String × String :=
  if parts.contains ("Scripts") then
    let idx := parts.indexOf ("Scripts")
    if idx + 1 < parts.length then (("ConnectWise RMM (Asio)"), parts.getD (idx + 1) (""))
    else sectionForStandalone parts
  else sectionForStandalone parts

/-- Model of `pathlib.PurePath.suffix` of a file name: from the last dot, provided
it is neither the first nor the last character. -/
def pathSuffix (name : List Char) : List Char :=
  if name.contains '.' then
    let i := name.length - 1 - name.reverse.indexOf '.'
    if 0 < i ∧ i + 1 < name.length then name.drop i else []
  else []

/-- Match semantics of `build_catalog._SYNOPSIS_RE`, i.e.
`re.search(r"^\s*<\#.*?\.SYNOPSIS.*?\#>", text, re.I | re.S | re.M)`:
some line start is followed by whitespace, `<#`, later (case-insensitively)
`.SYNOPSIS`, and later still `#>`. -/
def catalogSynopsisRe (text : List Char) : Bool :=
  (List.range (text.length + 1)).any fun i =>
    lineStartAt text i &&
    (List.range (text.length + 1 - i)).any fun d =>
      ((text.drop i).take d).all isPyWs &&
      ("<#").data.isPrefixOf (text.drop (i + d)) &&
      (List.range (text.length + 1)).any fun k =>
        i + d + 2 ≤ k &&
        lowerStr ((text.drop k).take 9) == (".synopsis").data &&
        (List.range (text.length + 1)).any fun l =>
          k + 9 ≤ l && ("#>").data.isPrefixOf (text.drop l)

/-- Model of `build_catalog.has_synopsis`, as a function of the file name and its
text: only PowerShell files are checked; every other script counts as
having a synopsis. -/
def has_synopsis (name text : List Char) : Bool :=
  if lowerStr (pathSuffix name) == (".ps1").data ||
      lowerStr (pathSuffix name) == (".psm1").data then
    catalogSynopsisRe text
  else true

/-- A catalog entry: (relative path, synopsis flag). -/
abbrev CatalogEntry := String × Bool

/-- Subsection name to entries, in insertion order. -/
abbrev SectionMap := List (String × List CatalogEntry)

/-- Category name to sections, in insertion order (the nested
`defaultdict` of `build_catalog.build_catalog_data`). -/
abbrev CatalogData := List (String × SectionMap)

/-- Append an entry to a section, creating the section at the end of the
map when absent (defaultdict insertion order). -/
def addEntrySec (secs : SectionMap) (sec : String) (e : CatalogEntry) : SectionMap :=
  match secs with
  | [] => [(sec, [e])]
  | (s, es) :: rest =>
    if s == sec then (s, es ++ [e]) :: rest
    else (s, es) :: addEntrySec rest sec e

/-- Append an entry under a category and section (defaultdict insertion
order). -/
def addEntry (d : CatalogData) (cat sec : String) (e : CatalogEntry) : CatalogData :=
  match d with
  | [] => [(cat, addEntrySec [] sec e)]
  | (c, secs) :: rest =>
    if c == cat then (c, addEntrySec secs sec e) :: rest
    else (c, secs) :: addEntry rest cat sec e

/-- Python's `<` on strings: code-point lexicographic comparison. -/
def lexLtB : List Char → List Char → Bool
  | [], [] => false
  | [], _ :: _ => true
  | _ :: _, [] => false
  | a :: as, b :: bs =>
    if a.toNat < b.toNat then true
    else if b.toNat < a.toNat then false
    else lexLtB as bs

/-- Python's `<=` on strings (the negation of the reversed strict order). -/
def lexLeB (a b : List Char) : Bool :=
  !(lexLtB b a)

/-- Sort key order of `nested[cat][sec].sort(key=lambda t: t[0].lower())`. -/
def entryLe (a b : CatalogEntry) : Prop :=
  lexLeB (lowerStr a.1.data) (lowerStr b.1.data) = true

instance : DecidableRel entryLe :=
  fun _ _ => inferInstanceAs (Decidable (_ = true))

/-- Python `sorted` order on strings (code-point lexicographic). -/
def strLe (a b : String) : Prop :=
  lexLeB a.data b.data = true

instance : DecidableRel strLe :=
  fun _ _ => inferInstanceAs (Decidable (_ = true))

/-- Joining of path segments with slashes (`PurePath.as_posix` of a relative path). -/
def joinParts (parts : List String) : String :=
  String.intercalate ("/") parts

/-- The final segment of a path, as characters. -/
def lastName (parts : List String) : List Char :=
  ((parts.getLast?).getD ("")).data

/-- Model of `build_catalog.build_catalog_data` over (path segments, file text)
pairs: group each file by `section_for`, record `has_synopsis`, then sort
each section's entries by lowercased relative path. -/
def build_catalog_data (files : List (List String × List Char)) : CatalogData :=
  let d := files.foldl (fun d f =>
    let rel := joinParts f.1
    let syn := has_synopsis (lastName f.1) f.2
    let cs := section_for f.1
    addEntry d cs.1 cs.2 (rel, syn)) []
  d.map (fun cs => (cs.1, cs.2.map (fun se => (se.1, List.insertionSort entryLe se.2))))

/-- Model of `Path(rel).name`: the part of `rel` after its last slash. -/
def lastComponent (s : List Char) : List Char :=
  (s.reverse.takeWhile (· != '/')).reverse

/-- The documentation-link fragment `f" â€” [docs]({doc})"` of
`render_catalog_block` (the source file's literal contains the bytes
rendered here via explicit code points). -/
def docPartOf (doc : String) : List Char :=
  [' ', Char.ofNat 0xE2, Char.ofNat 0x20AC, Char.ofNat 0x201D, ' '] ++
    ("[docs](").data ++ doc.data ++ (")").data

/-- Model of `build_catalog.render_catalog_block`: categories in sorted order, then
sections in sorted order, then one bullet line per entry, with a blank
line after each section and each category. -/
def render_catalog_block (data : CatalogData) (docs : List (String × String)) : List Char :=
  let cats := List.insertionSort strLe (data.map Prod.fst)
  (cats.map (fun cat =>
    let secs := (data.lookup cat).getD []
    let secNames := List.insertionSort strLe (secs.map Prod.fst)
    (("### ").data ++ cat.data ++ ('\n' :: '\n' :: [])) ++
    (secNames.map (fun sec =>
      let entries := (secs.lookup sec).getD []
      (("#### ").data ++ sec.data ++ ('\n' :: '\n' :: [])) ++
      (entries.map (fun e =>
        let base := lastComponent e.1.data
        let docPart := match docs.lookup e.1 with
          | some doc => docPartOf doc
          | none => []
        let synTag := if e.2 then (" (synopsis)").data else []
        ("- [").data ++ base ++ ("](").data ++ e.1.data ++ (")").data ++
          docPart ++ synTag ++ ['\n'])).flatten ++ ['\n'])).flatten ++
    ['\n'])).flatten

/-- A snapshot of filesystem state: the directories that exist and the
regular files that exist, each as a list of path segments. -/
structure FileSystem where
  dirs : List (List String)
  files : List (List String)

/-- Model of `build_catalog.SCRIPT_EXTS`. -/
def SCRIPT_EXTS : List (List Char) :=
  [(".ps1").data, (".psm1").data, (".py").data, (".sh").data]

/-- Model of `p.suffix.lower() in SCRIPT_EXTS`. -/
def extOk (p : List String) : Bool :=
  SCRIPT_EXTS.contains (lowerStr (pathSuffix (lastName p)))

/-- Model of `root.rglob("*")` filtered by `p.is_file()`: regular files strictly
below `root`. -/
def filesUnder (fs : FileSystem) (root : List String) : List (List String) :=
  fs.files.filter (fun p => root.isPrefixOf p && decide (root.length < p.length))

/-- The string a `Path` sorts and compares by. -/
def pathKey (p : List String) : String :=
  joinParts p

/-- The `Path` comparison order (lexicographic on the joined path string). -/
def pathLe (p q : List String) : Prop :=
  lexLeB (pathKey p).data (pathKey q).data = true

instance : DecidableRel pathLe :=
  fun _ _ => inferInstanceAs (Decidable (_ = true))

/-- The loop of `build_catalog.discover_scripts` generalised over the root
list: visit each existing root, collect regular files with an allowed
extension, then `sorted({...})` — deduplicate and sort. -/
def discover_over (fs : FileSystem) (roots : List (List String)) : List (List String) :=
  let collected := (roots.filter (fun r => fs.dirs.contains r)).flatMap
    (fun r => (filesUnder fs r).filter extOk)
  List.insertionSort pathLe collected.dedup

/-- The configured roots `[SCRIPTS_DIR, STANDALONE_DIR, PSA_DIR]`,
relative to the repository root. -/
def CATALOG_ROOTS : List (List String) :=
  [[("ConnectWise-RMM-Asio"), ("Scripts")], [("Standalone")], [("ConnectWise-PSA")]]

/-- Model of `build_catalog.discover_scripts`. -/
def discover_scripts (fs : FileSystem) : List (List String) :=
  discover_over fs CATALOG_ROOTS

/-- The scan predicate of the spec's leading-hash dialect: keep scanning
while lines are blank or hash-prefixed. -/
def specScanOk (l : List Char) : Bool :=
  (pyStrip l).isEmpty || startsWithHash (pyStrip l)

/-- The spec's notion of a synopsis line: hash-prefixed with nonempty
content after stripping the hash characters and surrounding whitespace. -/
def specGoodHash (l : List Char) : Bool :=
  startsWithHash (pyStrip l) && !(pyStrip ((pyStrip l).dropWhile (· == '#'))).isEmpty

/-- The content the spec says is returned for a synopsis line. -/
def specHashContent (l : List Char) : List Char :=
  pyStrip ((pyStrip l).dropWhile (· == '#'))

/-- Spec wording of the leading-hash dialect (§4.1): skip an optional
first line beginning with `#!`; among the scanned prefix of blank or
hash-prefixed lines, the first hash line with nonempty content is the
synopsis; otherwise the result is empty. -/
def specLeadingHashExtract (text : List Char) : List Char :=
  let lines := pySplitlines text
  let rest := match lines with
    | l0 :: t => if ("#!").data.isPrefixOf l0 then t else lines
    | [] => lines
  match (rest.takeWhile specScanOk).find? specGoodHash with
  | some l => specHashContent l
  | none => []

/-- Spec wording of the comment-help dialect extractor (§4.1): locate the
block between the first start token and the matching end token; find a
line whose trimmed content case-insensitively equals `.SYNOPSIS`; return
the next nonempty line, trimmed; empty in every failure case.  The source
contains no such extractor (its comment-help handling is the Boolean check
`has_ps_synopsis`); this definition exists to compare the claim's wording
with the code's behaviour. -/
def specCommentHelpExtract (text : List Char) : List Char :=
  match findSub ("<#").data text with
  | none => []
  | some i =>
    match findSub ("#>").data (text.drop (i + 2)) with
    | none => []
    | some j =>
      let lines := pySplitlines ((text.drop (i + 2)).take j)
      match lines.findIdx? (fun l => lowerStr (pyStrip l) == (".synopsis").data) with
      | none => []
      | some t =>
        match (lines.drop (t + 1)).find? (fun l => !(pyStrip l).isEmpty) with
        | some l => pyStrip l
        | none => []

/-- An anchor rule of the amended categorizer description: an anchor
segment, a category label, and whether the subsection defaults to
`General` when the anchor is the last segment. -/
structure AnchorRule where
  anchor : String
  label : String
  generalDefault : Bool

/-- The amended rule list: the `Scripts` rule has no `General` default
(when `Scripts` is the last segment the rule simply does not match). -/
def amendedRules : List AnchorRule :=
  [⟨("Scripts"), ("ConnectWise RMM (Asio)"), false⟩,
   ⟨("Standalone"), ("Standalone"), true⟩,
   ⟨("ConnectWise-PSA"), ("ConnectWise PSA"), true⟩]

/-- Apply one anchor rule to a path, as the amended claim describes it. -/
def ruleApply (parts : List String) (r : AnchorRule) : Option (String × String) :=
  if parts.contains r.anchor then
    if parts.indexOf r.anchor + 1 < parts.length then
      some (r.label, parts.getD (parts.indexOf r.anchor + 1) (""))
    else if r.generalDefault then some (r.label, ("General"))
    else none
  else none

/-- The amended categorizer: try the rules in order, first match wins,
fall back to `("Misc", "Misc")`. -/
def categorize_amended (parts : List String) : String × String :=
  (amendedRules.findSome? (ruleApply parts)).getD ((("Misc"), ("Misc")))

/-- The C3 scenario: `Scripts/Windows/Foo.ps1` with a valid comment-help
`.SYNOPSIS` block, and `Scripts/Linux/bar.sh` with only a shebang line and
code, in discovery order. -/
def scenarioFiles : List (List String × List Char) :=
  [([("ConnectWise-RMM-Asio"), ("Scripts"), ("Linux"), ("bar.sh")],
      ("#!/bin/bash\necho hi\n").data),
   ([("ConnectWise-RMM-Asio"), ("Scripts"), ("Windows"), ("Foo.ps1")],
      ("<#\n.SYNOPSIS\nDoes a thing.\n#>\nWrite-Host 1\n").data)]

/-- Splitting a text at its trailing-whitespace run recovers the text. -/
theorem pyRstrip_append_trailingWs (s : List Char) :
    pyRstrip s ++ trailingWs s = s := by
  have h := List.takeWhile_append_dropWhile (p := isPyWs) (l := s.reverse)
  simp only [pyRstrip, trailingWs]
  rw [← List.reverse_append, h, List.reverse_reverse]

/-- Unfolding equation for `findSub` independent of the list shape. -/
theorem findSub_eq (pat s : List Char) :
    findSub pat s = if pat.isPrefixOf s then some 0
      else match s with
        | [] => none
        | _ :: t => (findSub pat t).map (· + 1) := by
  cases s <;> rfl

/-- A pattern that is a prefix occurs as a substring. -/
theorem containsSub_of_isPrefixOf {pat s : List Char}
    (h : pat.isPrefixOf s = true) : containsSub pat s = true := by
  cases s <;> simp [containsSub, findSub, h]

/-- Substring occurrence is preserved by extending the text on the left. -/
theorem containsSub_cons {pat t : List Char} (c : Char)
    (h : containsSub pat t = true) : containsSub pat (c :: t) = true := by
  by_cases hp : pat.isPrefixOf (c :: t) = true
  · simp [containsSub, findSub, hp]
  · simp only [containsSub, findSub, hp, Bool.false_eq_true, if_false,
      Option.isSome_map']
    exact h

/-- A pattern occurs in any text of the form `a ++ pat ++ b`. -/
theorem containsSub_append_self (pat a b : List Char) :
    containsSub pat (a ++ (pat ++ b)) = true := by
  induction a with
  | nil =>
    apply containsSub_of_isPrefixOf
    exact List.isPrefixOf_iff_prefix.mpr (List.prefix_append pat b)
  | cons c a ih => simpa using containsSub_cons c ih

/-- In `pre ++ pat ++ rest`, if `pat` has no border and does not occur inside
`pre`, its first occurrence is exactly at index `pre.length`. -/
theorem findSub_append (pat pre rest : List Char)
    (hnb : NoBorder pat) (hpre : containsSub pat pre = false) :
    findSub pat (pre ++ (pat ++ rest)) = some pre.length := by
  induction pre with
  | nil =>
    have h : pat.isPrefixOf (pat ++ rest) = true :=
      List.isPrefixOf_iff_prefix.mpr (List.prefix_append pat rest)
    rw [List.nil_append, findSub_eq, h]
    rfl
  | cons c p ih =>
    have hstep : containsSub pat p = false := by
      by_contra hcon
      have : containsSub pat (c :: p) = true :=
        containsSub_cons c (by revert hcon; cases containsSub pat p <;> simp)
      rw [hpre] at this
      exact Bool.false_ne_true this
    have hnotpre : pat.isPrefixOf ((c :: p) ++ (pat ++ rest)) = false := by
      by_contra hcon
      have hpref : pat <+: ((c :: p) ++ (pat ++ rest)) :=
        List.isPrefixOf_iff_prefix.mp (by revert hcon; cases h : pat.isPrefixOf ((c :: p) ++ (pat ++ rest)) <;> simp)
      have htake : ((c :: p) ++ (pat ++ rest)).take pat.length = pat :=
        (List.prefix_iff_eq_take.mp hpref).symm
      by_cases hlen : pat.length ≤ (c :: p).length
      · -- the occurrence would lie inside `c :: p`
        have : (c :: p).take pat.length = pat := by
          rw [← List.take_append_of_le_length hlen, htake]
        have hocc : containsSub pat (c :: p) = true := by
          apply containsSub_of_isPrefixOf
          exact List.isPrefixOf_iff_prefix.mpr (this ▸ List.take_prefix pat.length (c :: p))
        rw [hpre] at hocc
        exact Bool.false_ne_true hocc
      · -- the occurrence would straddle the boundary: forces a border
        push_neg at hlen
        set m := pat.length - (c :: p).length with hm
        have hm0 : 0 < m := by omega
        have hmlt : m < pat.length := by simp [hm]; omega
        have hsplit : pat = (c :: p) ++ pat.take m := by
          have h1 : ((c :: p) ++ (pat ++ rest)).take pat.length
              = (c :: p) ++ (pat ++ rest).take m := by
            rw [List.take_append_eq_append_take, List.take_of_length_le (by omega)]
          have h2 : (pat ++ rest).take m = pat.take m :=
            List.take_append_of_le_length (by omega)
          rw [h1, h2] at htake
          exact htake.symm
        have hdrop : pat.drop (pat.length - m) = pat.take m := by
          have : pat.length - m = (c :: p).length := by omega
          rw [this]
          conv_lhs => rw [hsplit]
          exact List.drop_left (c :: p) (pat.take m)
        exact hnb m hmlt hm0 hdrop.symm
    have hnp2 : pat.isPrefixOf (c :: (p ++ (pat ++ rest))) = false := by
      simpa using hnotpre
    rw [List.cons_append, findSub_eq]
    simp only [hnp2, Bool.false_eq_true, if_false]
    rw [ih hstep]
    simp

/-- Applying `partition` to `pre ++ pat ++ rest` splits exactly at the boundary when
`pat` has no border and does not occur in `pre`. -/
theorem partitionAfter_append (pat pre rest : List Char)
    (hnb : NoBorder pat) (hpre : containsSub pat pre = false) :
    partitionAfter pat (pre ++ (pat ++ rest)) = (pre, rest) := by
  unfold partitionAfter
  rw [findSub_append pat pre rest hnb hpre]
  have h1 : (pre ++ (pat ++ rest)).take pre.length = pre := List.take_left pre (pat ++ rest)
  have h2 : (pre ++ (pat ++ rest)).drop (pre.length + pat.length) = rest := by
    have hl : pre.length + pat.length = (pre ++ pat).length := by simp
    rw [← List.append_assoc, hl]
    exact List.drop_left (pre ++ pat) rest
  simp [h1, h2]

theorem lexLtB_irrefl (a : List Char) : lexLtB a a = false := by
  induction a with
  | nil => rfl
  | cons c t ih => simp [lexLtB, ih]

theorem lexLtB_trans {a b c : List Char} (hab : lexLtB a b = true)
    (hbc : lexLtB b c = true) : lexLtB a c = true := by
  induction a generalizing b c with
  | nil =>
    cases c with
    | nil => cases b <;> simp_all [lexLtB]
    | cons _ _ => rfl
  | cons x xs ih =>
    cases b with
    | nil => simp [lexLtB] at hab
    | cons y ys =>
      cases c with
      | nil => simp [lexLtB] at hbc
      | cons z zs =>
        simp only [lexLtB] at hab hbc ⊢
        split_ifs at hab hbc ⊢ <;>
          first
            | rfl
            | omega
            | (exact ih hab hbc)

theorem lexLtB_connex (a b : List Char) :
    lexLtB a b = true ∨ lexLtB b a = true ∨ a = b := by
  induction a generalizing b with
  | nil => cases b <;> simp [lexLtB]
  | cons x xs ih =>
    cases b with
    | nil => simp [lexLtB]
    | cons y ys =>
      rcases Nat.lt_trichotomy x.toNat y.toNat with h | h | h
      · left; simp [lexLtB, h]
      · rcases ih ys with h2 | h2 | h2
        · left; simp [lexLtB, h, h2]
        · right; left; simp [lexLtB, h, h2]
        · right; right
          have hxy : x = y := Char.ext (UInt32.ext h)
          rw [hxy, h2]
      · right; left; simp [lexLtB, h, Nat.lt_asymm h]

theorem lexLtB_asymm {a b : List Char} (h : lexLtB a b = true) :
    lexLtB b a = false := by
  by_contra hcon
  have hba : lexLtB b a = true := by revert hcon; cases lexLtB b a <;> simp
  have := lexLtB_trans h hba
  rw [lexLtB_irrefl a] at this
  exact Bool.false_ne_true this

theorem lexLeB_total (a b : List Char) : lexLeB a b = true ∨ lexLeB b a = true := by
  rcases lexLtB_connex a b with h | h | h
  · left; simp [lexLeB, lexLtB_asymm h]
  · right; simp [lexLeB, lexLtB_asymm h]
  · left; simp [lexLeB, h, lexLtB_irrefl]

theorem lexLeB_trans {a b c : List Char} (hab : lexLeB a b = true)
    (hbc : lexLeB b c = true) : lexLeB a c = true := by
  simp only [lexLeB, Bool.not_eq_true'] at hab hbc ⊢
  by_contra hcon
  have hca : lexLtB c a = true := by revert hcon; cases lexLtB c a <;> simp
  rcases lexLtB_connex a b with h | h | h
  · have hcb := lexLtB_trans hca h
    rw [hbc] at hcb
    exact Bool.false_ne_true hcb
  · rw [hab] at h
    exact Bool.false_ne_true h
  · rw [← h] at hbc
    rw [hbc] at hca
    exact Bool.false_ne_true hca

/-- The imperative scanning loop computes exactly the spec's
takeWhile/find description. -/
theorem pyHashScan_eq_spec (ls : List (List Char)) :
    pyHashScan ls =
      (match (ls.takeWhile specScanOk).find? specGoodHash with
        | some l => specHashContent l
        | none => []) := by
  induction ls with
  | nil => rfl
  | cons ln rest ih =>
    by_cases h1 : startsWithHash (pyStrip ln) = true
    · by_cases h2 : (pyStrip ((pyStrip ln).dropWhile (· == '#'))).isEmpty = true
      · have hscan : specScanOk ln = true := by simp [specScanOk, h1]
        have hgood : specGoodHash ln = false := by simp [specGoodHash, h1, h2]
        have htw : List.takeWhile specScanOk (ln :: rest)
            = ln :: List.takeWhile specScanOk rest := by
          simp [List.takeWhile_cons, hscan]
        have hfind : List.find? specGoodHash (ln :: List.takeWhile specScanOk rest)
            = List.find? specGoodHash (List.takeWhile specScanOk rest) :=
          List.find?_cons_of_neg _ (by simp [hgood])
        rw [htw, hfind, ← ih]
        simp [pyHashScan, h1, h2]
      · have h2f : (pyStrip ((pyStrip ln).dropWhile (· == '#'))).isEmpty = false := by
          revert h2
          cases (pyStrip ((pyStrip ln).dropWhile (· == '#'))).isEmpty <;> simp
        have hscan : specScanOk ln = true := by simp [specScanOk, h1]
        have hgood : specGoodHash ln = true := by simp [specGoodHash, h1, h2f]
        have htw : List.takeWhile specScanOk (ln :: rest)
            = ln :: List.takeWhile specScanOk rest := by
          simp [List.takeWhile_cons, hscan]
        have hfind : List.find? specGoodHash (ln :: List.takeWhile specScanOk rest)
            = some ln := List.find?_cons_of_pos _ hgood
        rw [htw, hfind]
        simp [pyHashScan, h1, h2f, specHashContent]
    · have h1f : startsWithHash (pyStrip ln) = false := by
        revert h1
        cases startsWithHash (pyStrip ln) <;> simp
      by_cases h3 : (pyStrip ln).isEmpty = true
      · have hscan : specScanOk ln = true := by simp [specScanOk, h3]
        have hgood : specGoodHash ln = false := by simp [specGoodHash, h1f]
        have htw : List.takeWhile specScanOk (ln :: rest)
            = ln :: List.takeWhile specScanOk rest := by
          simp [List.takeWhile_cons, hscan]
        have hfind : List.find? specGoodHash (ln :: List.takeWhile specScanOk rest)
            = List.find? specGoodHash (List.takeWhile specScanOk rest) :=
          List.find?_cons_of_neg _ (by simp [hgood])
        rw [htw, hfind, ← ih]
        simp [pyHashScan, h1f, h3]
      · have h3f : (pyStrip ln).isEmpty = false := by
          revert h3
          cases (pyStrip ln).isEmpty <;> simp
        have hscan : specScanOk ln = false := by simp [specScanOk, h1f, h3f]
        have htw : List.takeWhile specScanOk (ln :: rest) = [] := by
          simp [List.takeWhile_cons, hscan]
        rw [htw]
        simp [pyHashScan, h1f, h3f]

/-- C5: for every text in the leading-hash dialect, extraction skips an
optional `#!` first line, scans lines that are blank or hash-prefixed,
returns the first hash-prefixed line whose stripped content is nonempty,
and returns empty at the first other line; in particular a shebang line
followed by `# Hello world` yields `Hello world`. -/
theorem c5_leading_hash_extraction :
    (∀ text : List Char, extract_bash_synopsis text = specLeadingHashExtract text) ∧
    extract_bash_synopsis (("#!/bin/bash\n# Hello world\necho hi").data)
      = ("Hello world").data := by
  constructor
  · intro text
    simp only [extract_bash_synopsis, specLeadingHashExtract]
    exact pyHashScan_eq_spec _
  · decide

/-- C8: synopsis extraction is total, and a docstring that is opened but
never closed is treated as no match: extraction falls back to the
leading-hash comment scan of the same text (which yields an empty result
when it finds nothing). -/
theorem c8_unclosed_docstring_fallback (text : List Char)
    (h : docstring_unclosed text = true) :
    extract_py_synopsis text = pyHashScan (pySplitlines text) := by
  unfold docstring_unclosed at h
  cases hopen : pyDocOpen text with
  | none =>
    unfold extract_py_synopsis pyDocMatch
    rw [hopen]
  | some pq =>
    obtain ⟨p, q⟩ := pq
    rw [hopen] at h
    have hb : containsSub q (text.drop p) = false := by
      have h2 : (!containsSub q (text.drop p)) = true := by simpa using h
      simpa using h2
    have hnone : findSub q (text.drop p) = none := by
      revert hb
      unfold containsSub
      cases findSub q (text.drop p) <;> simp
    have hmatch : pyDocMatch text = none := by
      unfold pyDocMatch
      rw [hopen]
      simp only [hnone]
    unfold extract_py_synopsis
    rw [hmatch]

/-- C8 witness: a concrete unclosed docstring falls back to the hash scan
and yields the empty result. -/
theorem c8_unclosed_docstring_fallback_witness :
    docstring_unclosed (("\"\"\"unclosed docstring\ncode()").data) = true ∧
    extract_py_synopsis (("\"\"\"unclosed docstring\ncode()").data)
      = pyHashScan (pySplitlines (("\"\"\"unclosed docstring\ncode()").data)) ∧
    extract_py_synopsis (("\"\"\"unclosed docstring\ncode()").data) = [] :=
  ⟨by decide, c8_unclosed_docstring_fallback _ (by decide), by decide⟩

/-- C6 counterexample: the path `ConnectWise-RMM-Asio/Scripts` contains
the anchor segment `Scripts` as its last segment, but the categorizer
returns the `Misc` fallback rather than the claimed
`("ConnectWise RMM (Asio)", "General")`. -/
theorem c6_anchor_last_counterexample :
    section_for [("ConnectWise-RMM-Asio"), ("Scripts")] = (("Misc"), ("Misc")) ∧
    section_for [("ConnectWise-RMM-Asio"), ("Scripts")]
      ≠ (("ConnectWise RMM (Asio)"), ("General")) := by
  constructor
  · decide
  · decide

/-- C6 (amended): the categorizer tries its anchor rules in a fixed
priority order with first match winning, where the `Scripts` rule matches
only when a segment follows the anchor (no `General` default), the
`Standalone` and `ConnectWise-PSA` rules default the subsection to
`General` when their anchor is last, and unmatched paths fall back to
`("Misc", "Misc")`. -/
theorem c6_categorizer_first_match :
    ∀ parts : List String, section_for parts = categorize_amended parts := by
  intro parts
  unfold categorize_amended amendedRules ruleApply section_for sectionForStandalone sectionForPSA
  simp only [List.findSome?_cons, List.findSome?_nil]
  split_ifs <;> simp_all

/-- C2 counterexample: merging between markers does not leave the bytes
after the end marker unchanged — one newline is inserted.  For the
document `A⟨START⟩old⟨END⟩B`, the text after the (first) end marker is
`B` before the merge and `\nB` after it. -/
theorem c2_after_marker_not_preserved :
    (partitionAfter MARKER_END
        (render_readme_merge
          (("A").data ++ (MARKER_START ++ (("old").data ++ (MARKER_END ++ ("B").data))))
          (("C\n").data))).2
      ≠ (partitionAfter MARKER_END
          (("A").data ++ (MARKER_START ++ (("old").data ++ (MARKER_END ++ ("B").data))))).2 := by
  decide

/-- C2 (amended): when the document decomposes as
`pre ++ START ++ mid ++ END ++ post` around the first marker pair, the
merge replaces the content strictly between the markers with a newline
followed by the rendered block, preserves both markers and every byte of
`pre`, and inserts one newline immediately after the end marker before
the unchanged `post` (`blockOf` ends with that newline). -/
theorem c2_marker_merge (pre mid post catalog : List Char)
    (h1 : containsSub MARKER_START pre = false)
    (h2 : containsSub MARKER_END mid = false) :
    render_readme_merge (pre ++ (MARKER_START ++ (mid ++ (MARKER_END ++ post)))) catalog
      = pre ++ (blockOf catalog ++ post) := by
  have hms : containsSub MARKER_START
      (pre ++ (MARKER_START ++ (mid ++ (MARKER_END ++ post)))) = true :=
    containsSub_append_self _ _ _
  have hme : containsSub MARKER_END
      (pre ++ (MARKER_START ++ (mid ++ (MARKER_END ++ post)))) = true := by
    have he : pre ++ (MARKER_START ++ (mid ++ (MARKER_END ++ post)))
        = (pre ++ MARKER_START ++ mid) ++ (MARKER_END ++ post) := by
      simp [List.append_assoc]
    rw [he]
    exact containsSub_append_self _ _ _
  have hp1 : partitionAfter MARKER_START
      (pre ++ (MARKER_START ++ (mid ++ (MARKER_END ++ post))))
      = (pre, mid ++ (MARKER_END ++ post)) :=
    partitionAfter_append _ _ _ (by decide) h1
  have hp2 : partitionAfter MARKER_END (mid ++ (MARKER_END ++ post)) = (mid, post) :=
    partitionAfter_append _ _ _ (by decide) h2
  unfold render_readme_merge
  simp only [hms, hme, Bool.and_self, if_true, hp1, hp2]
  simp [List.append_assoc]

/-- C2 witness: the amended marker merge evaluated on a concrete
document. -/
theorem c2_marker_merge_witness :
    render_readme_merge
        (("A").data ++ (MARKER_START ++ (("old").data ++ (MARKER_END ++ ("B").data))))
        (("C\n").data)
      = ("A").data ++ (blockOf (("C\n").data) ++ ("B").data) :=
  c2_marker_merge (("A").data) (("old").data) (("B").data) (("C\n").data)
    (by decide) (by decide)

/-- C1: the merge is not idempotent — each application inserts one more
newline after the end marker, so merging the same block twice differs
from merging it once even though the marker pair is in place. -/
theorem c1_merge_not_idempotent :
    render_readme_merge
        (render_readme_merge
          (("A").data ++ (MARKER_START ++ (("old").data ++ (MARKER_END ++ ("B").data))))
          (("C\n").data))
        (("C\n").data)
      ≠ render_readme_merge
          (("A").data ++ (MARKER_START ++ (("old").data ++ (MARKER_END ++ ("B").data))))
          (("C\n").data) := by
  decide

/-- C7 counterexample: with no markers and the legacy heading present,
a following level-1 heading (higher rank) does not stop the replaced
region — the merge deletes `# Title\nrest` instead of preserving it. -/
theorem c7_h1_heading_not_boundary :
    render_readme_merge (("## Script Catalog\nold\n# Title\nrest").data) (("C\n").data)
      = blockOf (("C\n").data) ∧
    render_readme_merge (("## Script Catalog\nold\n# Title\nrest").data) (("C\n").data)
      ≠ blockOf (("C\n").data) ++ ("# Title\nrest").data := by
  constructor
  · decide
  · decide

/-- C7 (amended): with no marker pair present, the merge replaces from
the first occurrence of the legacy heading up to (but not including) the
next position in the remainder where a line matching `##`, a tab or
space, and a nonempty rest begins — level-2 headings only; level-1
headings do not terminate the region — or to the end of the document when
no such line follows. -/
theorem c7_legacy_heading_merge (pre post catalog : List Char)
    (hm : (containsSub MARKER_START (pre ++ (LEGACY_H1 ++ post)) &&
            containsSub MARKER_END (pre ++ (LEGACY_H1 ++ post))) = false)
    (hl : containsSub LEGACY_H1 pre = false) :
    render_readme_merge (pre ++ (LEGACY_H1 ++ post)) catalog
      = pre ++ (blockOf catalog ++
          (match findH2 post with
            | some q => post.drop q
            | none => [])) := by
  have hcl : containsSub LEGACY_H1 (pre ++ (LEGACY_H1 ++ post)) = true :=
    containsSub_append_self _ _ _
  have hfs : findSub LEGACY_H1 (pre ++ (LEGACY_H1 ++ post)) = some pre.length :=
    findSub_append _ _ _ (by decide) hl
  have hdropLG : (pre ++ (LEGACY_H1 ++ post)).drop (pre.length + LEGACY_H1.length)
      = post := by
    rw [← List.append_assoc]
    have hlen : pre.length + LEGACY_H1.length = (pre ++ LEGACY_H1).length := by simp
    rw [hlen]
    exact List.drop_left _ _
  have htake : (pre ++ (LEGACY_H1 ++ post)).take pre.length = pre :=
    List.take_left _ _
  unfold render_readme_merge
  simp only [hm, Bool.false_eq_true, if_false, hcl, if_true, hfs, Option.getD_some, hdropLG]
  cases hq : findH2 post with
  | some q =>
    have hdropEnd : (pre ++ (LEGACY_H1 ++ post)).drop (pre.length + LEGACY_H1.length + q)
        = post.drop q := by
      rw [← List.drop_drop, hdropLG]
    simp only [hq, htake, hdropEnd]
    simp [List.append_assoc]
  | none =>
    simp only [hq, htake, List.drop_length]
    simp [List.append_assoc]

/-- C7 witness: the amended legacy-heading merge evaluated on a concrete
document with a following level-2 heading. -/
theorem c7_legacy_heading_merge_witness :
    render_readme_merge
        (("Intro\n").data ++ (LEGACY_H1 ++ ("\nold stuff\n## Next\ntail").data))
        (("C\n").data)
      = ("Intro\n").data ++ (blockOf (("C\n").data) ++
          (match findH2 (("\nold stuff\n## Next\ntail").data) with
            | some q => (("\nold stuff\n## Next\ntail").data).drop q
            | none => [])) :=
  c7_legacy_heading_merge (("Intro\n").data) (("\nold stuff\n## Next\ntail").data)
    (("C\n").data) (by decide) (by decide)

/-- C10 counterexample: the original text `A\n\n` ends in whitespace, yet
the append path reproduces it byte-for-byte before the block, so the text
outside the block is preserved despite the trailing whitespace. -/
theorem c10_trailing_blank_line_preserved :
    trailingWs (("A\n\n").data) ≠ [] ∧
    render_readme_merge (("A\n\n").data) (("C\n").data)
      = ("A\n\n").data ++ blockOf (("C\n").data) := by
  constructor
  · decide
  · decide

/-- C10 (amended): with neither the marker pair nor the legacy heading
present, the merge returns the text with all trailing whitespace removed,
one blank line, and the block; the part before the block equals the
original text exactly when the original's trailing whitespace is
precisely `"\n\n"` (for any other nonempty trailing whitespace it is not
byte-preserved). -/
theorem c10_append_path (prev catalog : List Char)
    (h1 : (containsSub MARKER_START prev && containsSub MARKER_END prev) = false)
    (h2 : containsSub LEGACY_H1 prev = false) :
    render_readme_merge prev catalog
      = pyRstrip prev ++ ('\n' :: '\n' :: blockOf catalog) ∧
    (pyRstrip prev ++ ('\n' :: '\n' :: []) = prev ↔
      trailingWs prev = ('\n' :: '\n' :: [])) := by
  constructor
  · unfold render_readme_merge
    simp only [h1, Bool.false_eq_true, if_false, h2]
  · constructor
    · intro h
      have hs := pyRstrip_append_trailingWs prev
      exact List.append_cancel_left (hs.trans h.symm)
    · intro h
      have hs := pyRstrip_append_trailingWs prev
      rw [h] at hs
      exact hs

/-- C10 witness: the amended append-path description evaluated on a
concrete text ending in a space and a tab. -/
theorem c10_append_path_witness :
    (render_readme_merge (("A \t").data) (("C\n").data)
        = pyRstrip (("A \t").data) ++ ('\n' :: '\n' :: blockOf (("C\n").data))) ∧
    ((pyRstrip (("A \t").data) ++ ('\n' :: '\n' :: []) = ("A \t").data) ↔
      trailingWs (("A \t").data) = ('\n' :: '\n' :: [])) :=
  c10_append_path (("A \t").data) (("C\n").data) (by decide) (by decide)

/-- C4 counterexample: for `<#\n.SYNOPSIS\n#>` the tag line is followed by
no nonempty line inside the block, so the claimed extractor returns empty
(no synopsis); but the code's comment-help check reports a synopsis as
present (it is a Boolean check that does not require a following line). -/
theorem c4_tag_without_following_line :
    has_ps_synopsis (("<#\n.SYNOPSIS\n#>").data) = true ∧
    specCommentHelpExtract (("<#\n.SYNOPSIS\n#>").data) = [] := by
  constructor
  · decide
  · decide

/-- C4 (amended): for a text decomposing as `pre ++ <# ++ mid ++ #> ++ post`
around the first comment-help block, the code's comment-help handling is
the Boolean check `has_ps_synopsis`, true iff the block contains, at some
line start, optional whitespace (possibly spanning line breaks) followed
by `.SYNOPSIS` case-insensitively at a word boundary; no following
nonempty line is required, no synopsis line is returned, and no input is
an error. -/
theorem c4_comment_help_check (pre mid post : List Char)
    (h1 : containsSub (("<#").data) pre = false)
    (h2 : containsSub (("#>").data) mid = false) :
    has_ps_synopsis (pre ++ (("<#").data ++ (mid ++ (("#>").data ++ post))))
      = psTagRe mid := by
  have hfs1 : findSub (("<#").data)
      (pre ++ (("<#").data ++ (mid ++ (("#>").data ++ post)))) = some pre.length :=
    findSub_append _ _ _ (by decide) h1
  have hdrop : (pre ++ (("<#").data ++ (mid ++ (("#>").data ++ post)))).drop (pre.length + 2)
      = mid ++ (("#>").data ++ post) := by
    rw [← List.append_assoc]
    have hlen : pre.length + 2 = (pre ++ ("<#").data).length := by simp
    rw [hlen]
    exact List.drop_left _ _
  have hfs2 : findSub (("#>").data) (mid ++ (("#>").data ++ post)) = some mid.length :=
    findSub_append _ _ _ (by decide) h2
  have htake : (mid ++ (("#>").data ++ post)).take mid.length = mid :=
    List.take_left _ _
  unfold has_ps_synopsis
  rw [hfs1]
  simp only [hdrop, hfs2, htake]

/-- C4 witness: the amended comment-help check evaluated around a concrete
block containing a `.SYNOPSIS` tag. -/
theorem c4_comment_help_check_witness :
    has_ps_synopsis
        (("Intro ").data ++ (("<#").data ++
          (("\n .SYNOPSIS\n Gets stuff\n").data ++ (("#>").data ++ ("\ncode").data))))
      = psTagRe (("\n .SYNOPSIS\n Gets stuff\n").data) :=
  c4_comment_help_check (("Intro ").data) (("\n .SYNOPSIS\n Gets stuff\n").data)
    (("\ncode").data) (by decide) (by decide)

/-- C3 counterexample: in the rendered catalog for the scenario, `bar.sh`
carries the `(synopsis)` tag — non-PowerShell scripts are never marked as
missing a synopsis — contradicting the claim that it is marked missing. -/
theorem c3_bar_marked_with_synopsis :
    containsSub
        (("- [bar.sh](ConnectWise-RMM-Asio/Scripts/Linux/bar.sh) (synopsis)\n").data)
        (render_catalog_block (build_catalog_data scenarioFiles) []) = true ∧
    has_synopsis (("bar.sh").data) (("#!/bin/bash\necho hi\n").data) = true := by
  constructor
  · decide
  · decide

/-- C3 (amended): the rendered catalog lists both scenario files under
their subsections (`Linux`, `Windows`) of the `ConnectWise RMM (Asio)`
category, with `Foo.ps1` marked as having a synopsis and `bar.sh` also
marked as having one (non-PowerShell files are not checked). -/
theorem c3_catalog_end_to_end :
    render_catalog_block (build_catalog_data scenarioFiles) []
      = ("### ConnectWise RMM (Asio)\n\n#### Linux\n\n- [bar.sh](ConnectWise-RMM-Asio/Scripts/Linux/bar.sh) (synopsis)\n\n#### Windows\n\n- [Foo.ps1](ConnectWise-RMM-Asio/Scripts/Windows/Foo.ps1) (synopsis)\n\n\n").data := by
  decide

/-- The insertion sort of a deduplicated path list has no duplicates. -/
theorem sortedDedup_nodup (l : List (List String)) :
    (List.insertionSort pathLe l.dedup).Nodup :=
  ((List.perm_insertionSort pathLe l.dedup).nodup_iff).mpr (List.nodup_dedup l)

/-- The insertion sort of a path list is sorted in the path order. -/
theorem sortedDedup_sorted (l : List (List String)) :
    List.Sorted pathLe (List.insertionSort pathLe l.dedup) := by
  haveI : IsTotal (List String) pathLe :=
    ⟨fun a b => lexLeB_total (pathKey a).data (pathKey b).data⟩
  haveI : IsTrans (List String) pathLe :=
    ⟨fun _ _ _ hab hbc => lexLeB_trans hab hbc⟩
  exact List.sorted_insertionSort pathLe l.dedup

/-- C9: over every modelled filesystem state and root list, discovery
returns a duplicate-free list, sorted in the total path order (the joined
path string), a root that is not an existing directory is silently
skipped, and `discover_scripts` is this discovery applied to the three
configured roots. -/
theorem c9_discovery (fs : FileSystem) (roots : List (List String)) :
    (discover_over fs roots).Nodup ∧
    List.Sorted pathLe (discover_over fs roots) ∧
    (∀ r, fs.dirs.contains r = false →
      discover_over fs (r :: roots) = discover_over fs roots) ∧
    discover_scripts fs = discover_over fs CATALOG_ROOTS := by
  refine ⟨?_, ?_, ?_, rfl⟩
  · simp only [discover_over]
    exact sortedDedup_nodup _
  · simp only [discover_over]
    exact sortedDedup_sorted _
  · intro r hr
    simp only [discover_over, List.filter_cons, hr, Bool.false_eq_true, if_false]

/-- C9 witness: discovery over a concrete filesystem with one existing
root and one missing root. -/
theorem c9_discovery_witness :
    (discover_over
        { dirs := [[("Standalone")]],
          files := [[("Standalone"), ("b.sh")], [("Standalone"), ("A.ps1")],
                    [("Standalone"), ("x.txt")]] } CATALOG_ROOTS).Nodup ∧
    List.Sorted pathLe (discover_over
        { dirs := [[("Standalone")]],
          files := [[("Standalone"), ("b.sh")], [("Standalone"), ("A.ps1")],
                    [("Standalone"), ("x.txt")]] } CATALOG_ROOTS) ∧
    discover_over
        { dirs := [[("Standalone")]],
          files := [[("Standalone"), ("b.sh")], [("Standalone"), ("A.ps1")],
                    [("Standalone"), ("x.txt")]] } ([("missing")] :: CATALOG_ROOTS)
      = discover_over
          { dirs := [[("Standalone")]],
            files := [[("Standalone"), ("b.sh")], [("Standalone"), ("A.ps1")],
                      [("Standalone"), ("x.txt")]] } CATALOG_ROOTS := by
  obtain ⟨hn, hs, hskip, _⟩ := c9_discovery
    { dirs := [[("Standalone")]],
      files := [[("Standalone"), ("b.sh")], [("Standalone"), ("A.ps1")],
                [("Standalone"), ("x.txt")]] } CATALOG_ROOTS
  exact ⟨hn, hs, hskip _ (by decide)⟩
